import Mathlib

/-!
Verification of the retrieval-and-grounding engine of the ai-local-rag-system
repository against its natural-language specification.

The repository ships the engine's public data declarations (the TypeScript
interfaces `QueryResponse`, `Citation`, `HighlightSpan` in the web types
module) while the engine itself (lexical index, vector index, hybrid merger,
reranker, context assembler, citation verifier, orchestrator) is declared as
TODO work in the backend; those components are therefore modelled here from
the specification text (§4.1–§4.7, §7 of spec.md), each marked
`Modelled from the spec:`.  The TypeScript declarations that do exist are
embedded directly from the source.

Conventions of the shallow embedding: scores are rationals (ℚ), text is
`List Char`, identifiers are `Nat`, TypeScript optional fields are `Option`.
-/

/-- Modelled from the spec: §3 Chunk — immutable unit of retrievable text with
`chunk_id`, `document_id`, `text`, `char_range` (start, end), optional
`page_number`, `token_count`, `embedding` and derived `lexical_terms`
(the last owned by the Lexical Index). -/
structure Chunk where
  chunk_id : Nat
  document_id : Nat
  text : List Char
  char_start : Nat
  char_end : Nat
  page_number : Option Nat
  token_count : Nat
  embedding : List ℚ
  lexical_terms : List (List Char)
deriving Repr, DecidableEq

/-- Modelled from the spec: §3 Candidate — a scored reference to a Chunk:
`chunk_id`, nullable `lexical_score` and `vector_score`, `fused_score`,
nullable `rerank_score` set only after reranking. -/
structure Candidate where
  chunk_id : Nat
  lexical_score : Option ℚ
  vector_score : Option ℚ
  fused_score : ℚ
  rerank_score : Option ℚ
deriving Repr, DecidableEq

/-- Modelled from the spec: §4.1 — stop-word list used when the Lexical Index
filters an "empty or stop-word-only query". The concrete list is an
implementation detail; only membership matters to the contract. -/
def stopWords : List (List Char) :=
  ["the", "a", "an", "of", "and", "or", "is", "to", "in", "on"].map
    (fun s => s.toList)

def isStopWord (t : List Char) : Bool :=
  stopWords.contains t

/-- Term frequency of `t` inside a chunk's derived lexical terms. -/
def tf (t : List Char) (c : Chunk) : Nat :=
  c.lexical_terms.count t

/-- Document frequency of `t` across the index. -/
def df (t : List Char) (idx : List Chunk) : Nat :=
  (idx.filter (fun c => decide (0 < tf t c))).length

/-- Modelled from the spec: §4.1 — inverse-document-frequency weight: "rare
terms across the corpus are weighted higher".  A rational surrogate of the
BM25 idf (monotone decreasing in document frequency) is used since the
logarithm is not rational. -/
def idf (t : List Char) (idx : List Chunk) : ℚ :=
  ((idx.length : ℚ) - (df t idx : ℚ) + 1 / 2) / ((df t idx : ℚ) + 1 / 2)

def bm25k1 : ℚ := 3 / 2

/-- Modelled from the spec: §4.1 — BM25-style score: "score increases with
term frequency but with diminishing returns" (saturation with constant k1). -/
def bm25Score (idx : List Chunk) (terms : List (List Char)) (c : Chunk) : ℚ :=
  (terms.map (fun t =>
    idf t idx * ((tf t c : ℚ) * (bm25k1 + 1)) / ((tf t c : ℚ) + bm25k1))).sum

/-- Descending-score, then ascending-`chunk_id`, order on scored pairs
(spec §4.1/§4.2: "ties broken by `chunk_id` ascending for determinism"). -/
def pairScoreOrder (a b : Nat × ℚ) : Prop :=
  b.2 < a.2 ∨ (a.2 = b.2 ∧ a.1 ≤ b.1)

instance : DecidableRel pairScoreOrder :=
  fun a b => inferInstanceAs (Decidable (b.2 < a.2 ∨ (a.2 = b.2 ∧ a.1 ≤ b.1)))

/-- Modelled from the spec: §4.1 Lexical Index —
`search_lexical(query_terms, top_k)` returns an ordered list of
`(chunk_id, score)`; stop words are removed, only chunks containing at least
one remaining query term are candidates (inverted-index semantics), ordering
is score descending with `chunk_id` tie-break, truncated to `top_k`.  "Must
handle an empty or stop-word-only query by returning an empty list rather
than failing." -/
def search_lexical (idx : List Chunk) (query_terms : List (List Char))
    (top_k : Nat) : List (Nat × ℚ) :=
  let qs := query_terms.filter (fun t => !(isStopWord t))
  let cands := idx.filter (fun c => qs.any (fun t => decide (0 < tf t c)))
  let scored := cands.map (fun c => (c.chunk_id, bm25Score idx qs c))
  (scored.insertionSort pairScoreOrder).take top_k

/-- Inner product of two embedding vectors (spec §4.2 allows inner product
for pre-normalized vectors in place of cosine similarity). -/
def dot (u v : List ℚ) : ℚ :=
  (List.zipWith (fun a b => a * b) u v).sum

/-- Modelled from the spec: §4.2 Vector Index —
`search_vector(query_embedding, top_k)` returns `(chunk_id, similarity)`
ordered by descending similarity with deterministic `chunk_id` tie-break. -/
def search_vector (idx : List Chunk) (qemb : List ℚ) (top_k : Nat) :
    List (Nat × ℚ) :=
  ((idx.map (fun c => (c.chunk_id, dot qemb c.embedding))).insertionSort
    pairScoreOrder).take top_k

/-- Modelled from the spec: §4.3 — min-max normalization of one score list
independently to [0, 1].  When all scores are equal the normalized value is
taken to be 1 (the spec fixes only the [0, 1] range). -/
def normalizeScores : List (Nat × ℚ) → List (Nat × ℚ)
  | [] => []
  | p :: ps =>
    let scores := (p :: ps).map Prod.snd
    let lo := scores.foldr min p.2
    let hi := scores.foldr max p.2
    if hi = lo then (p :: ps).map (fun q => (q.1, (1 : ℚ)))
    else (p :: ps).map (fun q => (q.1, (q.2 - lo) / (hi - lo)))

/-- Score of `id` in a scored list, with 0 as the default for an absent id
(spec §4.3: "a chunk retrieved by only one signal receives the other
signal's score as 0 after normalization, not a null"). -/
def lookupScore (l : List (Nat × ℚ)) (id : Nat) : ℚ :=
  match l.find? (fun p => p.1 == id) with
  | some p => p.2
  | none => 0

/-- Descending `fused_score`, ascending `chunk_id` order on Candidates. -/
def candOrder (a b : Candidate) : Prop :=
  b.fused_score < a.fused_score ∨
    (a.fused_score = b.fused_score ∧ a.chunk_id ≤ b.chunk_id)

instance : DecidableRel candOrder :=
  fun a b => inferInstanceAs (Decidable (b.fused_score < a.fused_score ∨
    (a.fused_score = b.fused_score ∧ a.chunk_id ≤ b.chunk_id)))

/-- Modelled from the spec: §4.3 Hybrid Merger — normalize each score list
independently, take the union of chunk ids, compute
`fused_score = α · norm(vector_score) + (1-α) · norm(lexical_score)`
(absent signal contributing 0), sort by `fused_score` descending with
`chunk_id` tie-break, truncate to the fan-out size. -/
def fuseCandidates (lex vec : List (Nat × ℚ)) (alpha : ℚ) (fanout : Nat) :
    List Candidate :=
  let nlex := normalizeScores lex
  let nvec := normalizeScores vec
  let ids := (lex.map Prod.fst ++ vec.map Prod.fst).dedup
  let cands := ids.map (fun i =>
    { chunk_id := i
      lexical_score := (lex.find? (fun p => p.1 == i)).map Prod.snd
      vector_score := (vec.find? (fun p => p.1 == i)).map Prod.snd
      fused_score := alpha * lookupScore nvec i + (1 - alpha) * lookupScore nlex i
      rerank_score := none : Candidate })
  (cands.insertionSort candOrder).take fanout

/-- Modelled from the spec: §2 data flow — the retrieval half of the
pipeline: query text → [Lexical Index, Vector Index] → Hybrid Merger. -/
def retrieve (idx : List Chunk) (qterms : List (List Char)) (qemb : List ℚ)
    (alpha : ℚ) (fanout top_k : Nat) : List Candidate :=
  fuseCandidates (search_lexical idx qterms top_k)
    (search_vector idx qemb top_k) alpha fanout

/-- Modelled from the spec: §4.4/§7 — outcome of the pluggable reranker
call: a populated score function, or the `RerankUnavailable` /
per-stage timeout failures that must degrade gracefully. -/
inductive RerankOutcome where
  | ok (scores : Nat → ℚ)
  | unavailable
  | timeout

/-- Descending best-then-rerank score order used after reranking. -/
def rerankOrder (a b : Candidate) : Prop :=
  b.rerank_score.getD b.fused_score < a.rerank_score.getD a.fused_score ∨
    (a.rerank_score.getD a.fused_score = b.rerank_score.getD b.fused_score ∧
      a.chunk_id ≤ b.chunk_id)

instance : DecidableRel rerankOrder :=
  fun a b => inferInstanceAs (Decidable (_ ∨ (_ ∧ _)))

/-- Modelled from the spec: §4.4 Reranker — on success the same candidate
set is returned with `rerank_score` populated, in a new order; "if the
reranker is unavailable or times out, the system falls back to the
pre-rerank ordering rather than failing the query". -/
def applyRerank (outcome : RerankOutcome) (cands : List Candidate) :
    List Candidate :=
  match outcome with
  | RerankOutcome.ok scores =>
      (cands.map (fun c => { c with rerank_score := some (scores c.chunk_id) })).insertionSort
        rerankOrder
  | RerankOutcome.unavailable => cands
  | RerankOutcome.timeout => cands

/-- Modelled from the spec: §3/§4.5 — two chunks conflict when they belong
to the same document and their `char_range`s overlap. -/
def chunkOverlap (a b : Chunk) : Prop :=
  a.document_id = b.document_id ∧
    a.char_start < b.char_end ∧ b.char_start < a.char_end

instance : DecidableRel chunkOverlap :=
  fun a b => inferInstanceAs (Decidable (_ ∧ (_ ∧ _)))

def sumTokens (l : List Chunk) : Nat :=
  (l.map Chunk.token_count).sum

/-- Best available score of a candidate (spec §4.5: "`rerank_score` if
present, else `fused_score`"). -/
def bestScore (c : Candidate) : ℚ :=
  c.rerank_score.getD c.fused_score

/-- Descending best-score, ascending `chunk_id` order for selection. -/
def assembleOrder (a b : Candidate) : Prop :=
  bestScore b < bestScore a ∨
    (bestScore a = bestScore b ∧ a.chunk_id ≤ b.chunk_id)

instance : DecidableRel assembleOrder :=
  fun a b => inferInstanceAs (Decidable (_ ∨ (_ ∧ _)))

/-- Modelled from the spec: §4.5 Context Assembler, greedy selection pass —
walk the score-ordered chunks, keeping a chunk when it fits the remaining
token budget and does not overlap any already-kept chunk; an overlapping
lower-scored chunk is dropped (the spec allows "drop or trim"). -/
def assembleGo (budget : Nat) (acc : List Chunk) : List Chunk → List Chunk
  | [] => acc.reverse
  | c :: rest =>
    if sumTokens acc + c.token_count ≤ budget ∧ ∀ d ∈ acc, ¬ chunkOverlap d c
    then assembleGo budget (c :: acc) rest
    else assembleGo budget acc rest

/-- Authoritative chunk lookup in an index snapshot. -/
def chunkById (idx : List Chunk) : Nat → Option Chunk :=
  fun i => idx.find? (fun c => c.chunk_id == i)

/-- Modelled from the spec: §4.5 Context Assembler — select a final ordered
subset of Candidates by best available score, respecting the maximum total
token budget and rejecting overlapping spans from the same document. -/
def assembleContext (budget : Nat) (cands : List Candidate)
    (getChunk : Nat → Option Chunk) : List Chunk :=
  assembleGo budget []
    ((cands.insertionSort assembleOrder).filterMap
      (fun c => getChunk c.chunk_id))

/-- Text of a half-open character span `[s, e)` of `xs`. -/
def spanText (xs : List Char) (s e : Nat) : List Char :=
  (xs.take e).drop s

/-- Levenshtein edit distance between two character lists (insertions,
deletions, substitutions each of cost 1). -/
def editDistance : List Char → List Char → Nat
  | [], ys => ys.length
  | xs, [] => xs.length
  | x :: xs, y :: ys =>
    if x = y then editDistance xs ys
    else 1 + min (editDistance xs (y :: ys))
      (min (editDistance (x :: xs) ys) (editDistance xs ys))
termination_by xs ys => xs.length + ys.length

/-- Modelled from the spec: §4.6/§9 — normalized edit-distance similarity in
[0, 1]: 1 for identical texts, decreasing with edit distance. -/
def similarity (a b : List Char) : ℚ :=
  if max a.length b.length = 0 then 1
  else 1 - (editDistance a b : ℚ) / (max a.length b.length : ℚ)

/-- First maximizer of `f` over a list (deterministic argmax). -/
def argmaxBy {α : Type} (f : α → ℚ) : List α → Option α
  | [] => none
  | x :: xs => some (xs.foldl (fun best y => if f best < f y then y else best) x)

/-- All candidate source spans of length `segLen` (clamped) in a chunk text. -/
def candidateSpans (segLen : Nat) (ctext : List Char) : List (Nat × Nat) :=
  (List.range (ctext.length + 1)).map
    (fun i => (i, min (i + segLen) ctext.length))

/-- Modelled from the spec: §4.6 — best-matching span of a chunk's text for
one answer segment, by maximal similarity (first maximum for determinism). -/
def bestSpan (stext ctext : List Char) : Nat × Nat :=
  (argmaxBy (fun sp => similarity stext (spanText ctext sp.1 sp.2))
    (candidateSpans stext.length ctext)).getD (0, 0)

/-- Modelled from the spec: §4.6 — best (chunk, span) match of an answer
segment across the whole ContextWindow, by match confidence. -/
def bestMatch (stext : List Char) (ctx : List Chunk) :
    Option (Chunk × (Nat × Nat)) :=
  argmaxBy (fun p => similarity stext (spanText p.1.text p.2.1 p.2.2))
    (ctx.map (fun ch => (ch, bestSpan stext ch.text)))

/-- Modelled from the spec: §3 Citation — `answer_span` (start, end offsets
into the generated answer), `chunk_id`, `source_span` (offsets into that
chunk's text), `confidence` in [0, 1]; below-threshold citations carry
`verified := false` rather than being discarded. -/
structure CitationRec where
  chunk_id : Nat
  answer_start : Nat
  answer_end : Nat
  source_start : Nat
  source_end : Nat
  confidence : ℚ
  verified : Bool
deriving Repr, DecidableEq

/-- Modelled from the spec: §4.6 — produce the Citation for one answer
segment: locate the best-matching chunk span; the recorded confidence is the
similarity of the recorded spans' texts; with no context to match against
the segment is annotated with confidence 0 and left unverified. -/
def citeSegment (threshold : ℚ) (answer : List Char) (ctx : List Chunk)
    (seg : Nat × Nat) : CitationRec :=
  let stext := spanText answer seg.1 seg.2
  match bestMatch stext ctx with
  | none =>
    { chunk_id := 0, answer_start := seg.1, answer_end := seg.2
      source_start := 0, source_end := 0, confidence := 0
      verified := decide (threshold ≤ (0 : ℚ)) }
  | some (ch, sp) =>
    let conf := similarity stext (spanText ch.text sp.1 sp.2)
    { chunk_id := ch.chunk_id, answer_start := seg.1, answer_end := seg.2
      source_start := sp.1, source_end := sp.2, confidence := conf
      verified := decide (threshold ≤ conf) }

/-- Modelled from the spec: §4.6 — the verifier's output: the unmodified
answer text plus one Citation per answer segment. -/
structure VerifiedAnswer where
  answer_text : List Char
  citations : List CitationRec
deriving Repr, DecidableEq

/-- Modelled from the spec: §4.6 Citation Extractor/Verifier — annotate the
generated answer, at the configured segmentation granularity, with one
Citation per segment; never errors and never modifies the answer text. -/
def verifyCitations (threshold : ℚ) (answer : List Char) (ctx : List Chunk)
    (segs : List (Nat × Nat)) : VerifiedAnswer :=
  { answer_text := answer
    citations := segs.map (citeSegment threshold answer ctx) }

/-- Modelled from the spec: §6 — the external generation capability is an
opaque call that either returns answer text or fails. -/
inductive GenOutcome where
  | ok (answer : List Char)
  | failure

/-- Modelled from the spec: §7 — outcome of the orchestrator's public
`query` operation: a completed grounded response, the explicit
`NoCandidates` "no relevant sources found" response, or a surfaced failure
with a stable error code. -/
inductive QueryOutcome where
  | completed (va : VerifiedAnswer)
  | noCandidates
  | failed (code : List Char)
deriving Repr, DecidableEq

/-- A `QueryOutcome` is a user-visible error only in the `failed` case;
`NoCandidates` is a valid outcome, not an error (spec §7). -/
def QueryOutcome.isError : QueryOutcome → Bool
  | QueryOutcome.failed _ => true
  | _ => false

/-- Citation list carried by an outcome; the `NoCandidates` response has an
empty citation list (spec §8 scenario). -/
def QueryOutcome.citationList : QueryOutcome → List CitationRec
  | QueryOutcome.completed va => va.citations
  | _ => []

/-- Modelled from the spec: engine configuration knobs — fusion weight `α`
(§4.3), fan-out and `top_k` sizes, minimum score threshold (§4.5), token
budget (§4.5), grounding threshold (§3/§4.6). -/
structure EngineConfig where
  alpha : ℚ
  fanout : Nat
  top_k : Nat
  min_score : ℚ
  token_budget : Nat
  grounding_threshold : ℚ
deriving Repr, DecidableEq

/-- Modelled from the spec: §4.7 Query Orchestrator — sequence retrieval,
merging, the minimum-score filter, reranking (with its §4.4 fallback),
context assembly, generation, and citation verification.  An empty
above-threshold candidate set yields the `NoCandidates` outcome; generation
failure is surfaced; citation verification never fails. -/
def runQuery (cfg : EngineConfig) (idx : List Chunk)
    (qterms : List (List Char)) (qemb : List ℚ) (segs : List (Nat × Nat))
    (rr : RerankOutcome) (gen : GenOutcome) : QueryOutcome :=
  let fused := retrieve idx qterms qemb cfg.alpha cfg.fanout cfg.top_k
  let aboveMin := fused.filter (fun c => decide (cfg.min_score ≤ c.fused_score))
  if aboveMin.isEmpty then QueryOutcome.noCandidates
  else
    let reranked := applyRerank rr aboveMin
    let ctx := assembleContext cfg.token_budget reranked (chunkById idx)
    match gen with
    | GenOutcome.failure => QueryOutcome.failed ("GenerationFailure".toList)
    | GenOutcome.ok answer =>
      QueryOutcome.completed
        (verifyCitations cfg.grounding_threshold answer ctx segs)

/-- Embedded from src/unnamed/part_003 (`HighlightSpan`, lines 216–221):
`start`, `end` required; `page`, `section` optional. -/
structure HighlightSpan where
  start : Nat
  «end» : Nat
  page : Option Nat
  section' : Option String
deriving Repr, DecidableEq

/-- Embedded from src/unnamed/part_003 (`Citation`, lines 203–214): every
field except `page_number` is required (no `?` marker in the interface). -/
structure Citation where
  id : String
  document_id : String
  document_name : String
  chunk_id : String
  content : String
  page_number : Option Nat
  confidence_score : ℚ
  span_start : Nat
  span_end : Nat
  highlight_spans : List HighlightSpan
deriving Repr, DecidableEq

/-- Embedded from src/unnamed/part_003 (`QueryResponse`, lines 251–261):
all nine fields are required — none carries the `?` optional marker. -/
structure QueryResponse where
  answer : String
  citations : List Citation
  confidence_score : ℚ
  groundedness_score : ℚ
  processing_time_ms : ℚ
  tokens_used : Nat
  sources_retrieved : Nat
  session_id : String
  message_id : String
deriving Repr, DecidableEq

/-- Keys present when a `Citation` value is serialized as a JSON object:
optional fields are omitted when absent, required fields always appear. -/
def Citation.jsonKeys (c : Citation) : List String :=
  ["id", "document_id", "document_name", "chunk_id", "content"] ++
    (match c.page_number with
      | some _ => ["page_number"]
      | none => []) ++
    ["confidence_score", "span_start", "span_end", "highlight_spans"]

/-- Keys present when a `QueryResponse` value is serialized as a JSON
object: the interface has no optional field, so the key set is the same for
every value. -/
def QueryResponse.jsonKeys (_ : QueryResponse) : List String :=
  ["answer", "citations", "confidence_score", "groundedness_score",
    "processing_time_ms", "tokens_used", "sources_retrieved",
    "session_id", "message_id"]

/-! ### Helper lemmas -/

theorem sumTokens_nil : sumTokens [] = 0 := rfl

theorem sumTokens_cons (c : Chunk) (l : List Chunk) :
    sumTokens (c :: l) = c.token_count + sumTokens l := by
  simp [sumTokens]

theorem sumTokens_reverse (l : List Chunk) : sumTokens l.reverse = sumTokens l := by
  simp [sumTokens, List.sum_reverse]

theorem chunkOverlap_symm {a b : Chunk} (h : chunkOverlap a b) :
    chunkOverlap b a :=
  ⟨h.1.symm, h.2.2, h.2.1⟩

theorem notOverlap_symmetric : Symmetric (fun a b : Chunk => ¬ chunkOverlap a b) :=
  fun _ _ hxy hc => hxy (chunkOverlap_symm hc)

theorem assembleGo_budget (budget : Nat) (l : List Chunk) :
    ∀ acc : List Chunk, sumTokens acc ≤ budget →
      sumTokens (assembleGo budget acc l) ≤ budget := by
  induction l with
  | nil =>
    intro acc h
    simpa [assembleGo, sumTokens_reverse] using h
  | cons c rest ih =>
    intro acc h
    simp only [assembleGo]
    split
    · next hcond =>
      refine ih _ ?_
      rw [sumTokens_cons]
      omega
    · exact ih _ h

theorem assembleGo_pairwise (budget : Nat) (l : List Chunk) :
    ∀ acc : List Chunk, acc.Pairwise (fun a b => ¬ chunkOverlap a b) →
      (assembleGo budget acc l).Pairwise (fun a b => ¬ chunkOverlap a b) := by
  induction l with
  | nil =>
    intro acc h
    simp only [assembleGo]
    rw [List.pairwise_reverse]
    exact h.imp (fun hab hc => hab (chunkOverlap_symm hc))
  | cons c rest ih =>
    intro acc h
    simp only [assembleGo]
    split
    · next hcond =>
      refine ih _ (List.pairwise_cons.mpr ⟨?_, h⟩)
      intro d hd hc
      exact hcond.2 d hd (chunkOverlap_symm hc)
    · exact ih _ h

theorem assembleGo_mem (budget : Nat) (l : List Chunk) :
    ∀ acc : List Chunk, ∀ x ∈ assembleGo budget acc l, x ∈ acc ∨ x ∈ l := by
  induction l with
  | nil =>
    intro acc x hx
    simp only [assembleGo] at hx
    exact Or.inl (List.mem_reverse.mp hx)
  | cons c rest ih =>
    intro acc x hx
    simp only [assembleGo] at hx
    split at hx
    · rcases ih _ x hx with h | h
      · rcases List.mem_cons.mp h with h | h
        · exact Or.inr (h ▸ List.mem_cons_self c rest)
        · exact Or.inl h
      · exact Or.inr (List.mem_cons_of_mem c h)
    · rcases ih _ x hx with h | h
      · exact Or.inl h
      · exact Or.inr (List.mem_cons_of_mem c h)

theorem lookupScore_normalize_absent (l : List (Nat × ℚ)) (i : Nat)
    (h : l.find? (fun p => p.1 == i) = none) :
    lookupScore (normalizeScores l) i = 0 := by
  cases l with
  | nil => rfl
  | cons p ps =>
    simp only [normalizeScores]
    split
    · simp only [lookupScore, List.find?_map, Function.comp_def, h]
      rfl
    · simp only [lookupScore, List.find?_map, Function.comp_def, h]
      rfl

theorem foldl_max_mem {α : Type} (f : α → ℚ) (l : List α) :
    ∀ x : α, l.foldl (fun best y => if f best < f y then y else best) x ∈ x :: l := by
  induction l with
  | nil => intro x; simp
  | cons z zs ih =>
    intro x
    simp only [List.foldl_cons]
    rcases List.mem_cons.mp (ih (if f x < f z then z else x)) with h | h
    · rw [h]
      split
      · exact List.mem_cons_of_mem _ (List.mem_cons_self z zs)
      · exact List.mem_cons_self _ _
    · exact List.mem_cons_of_mem _ (List.mem_cons_of_mem z h)

theorem argmaxBy_mem {α : Type} (f : α → ℚ) (l : List α) (x : α)
    (h : argmaxBy f l = some x) : x ∈ l := by
  cases l with
  | nil => simp [argmaxBy] at h
  | cons y ys =>
    simp only [argmaxBy, Option.some.injEq] at h
    rw [← h]
    exact foldl_max_mem f ys y

theorem bestMatch_chunk_mem (stext : List Char) (ctx : List Chunk)
    (ch : Chunk) (sp : Nat × Nat) (h : bestMatch stext ctx = some (ch, sp)) :
    ch ∈ ctx := by
  have hm := argmaxBy_mem _ _ _ h
  rcases List.mem_map.mp hm with ⟨ch', hch', heq⟩
  have h1 : ch' = ch := congrArg Prod.fst heq
  exact h1 ▸ hch'

/-! ### Claim theorems -/

/-- C2: the Hybrid Merger's output ordering is a deterministic function of
the two input result lists and the fusion weight α — identical inputs give
the identical `chunk_id` sequence — and the same query against an unchanged
index yields the same Candidate ranking. -/
theorem merger_deterministic (lex1 lex2 vec1 vec2 : List (Nat × ℚ))
    (a1 a2 : ℚ) (fanout : Nat) (idx : List Chunk)
    (qterms : List (List Char)) (qemb : List ℚ) (top_k : Nat)
    (hlex : lex1 = lex2) (hvec : vec1 = vec2) (ha : a1 = a2) :
    (fuseCandidates lex1 vec1 a1 fanout).map Candidate.chunk_id =
      (fuseCandidates lex2 vec2 a2 fanout).map Candidate.chunk_id ∧
    retrieve idx qterms qemb a1 fanout top_k =
      retrieve idx qterms qemb a2 fanout top_k := by
  subst hlex; subst hvec; subst ha
  exact ⟨rfl, rfl⟩

/-- C2 witness: the determinism theorem applied at a concrete pair of
score lists, weight, and index. -/
theorem merger_deterministic_witness :
    (fuseCandidates [(1, 2)] [(2, 3)] (1 / 2) 4).map Candidate.chunk_id =
      (fuseCandidates [(1, 2)] [(2, 3)] (1 / 2) 4).map Candidate.chunk_id ∧
    retrieve [] [] [] (1 / 2) 4 3 = retrieve [] [] [] (1 / 2) 4 3 :=
  merger_deterministic [(1, 2)] [(1, 2)] [(2, 3)] [(2, 3)] (1 / 2) (1 / 2) 4
    [] [] [] 3 rfl rfl rfl

/-- C3: the sum of `token_count` over all chunks included in an assembled
ContextWindow never exceeds the configured token budget. -/
theorem context_window_within_budget (budget : Nat) (cands : List Candidate)
    (getChunk : Nat → Option Chunk) :
    sumTokens (assembleContext budget cands getChunk) ≤ budget := by
  unfold assembleContext
  exact assembleGo_budget budget _ [] (by simp [sumTokens])

/-- C4: no two chunks included in an assembled ContextWindow overlap — any
two members of the output that conflict (same document, overlapping
`char_range`) are the same element — and every included chunk is an
unmodified chunk of some input candidate (overlap is resolved by dropping
the lower-scored chunk, which the spec permits in place of trimming). -/
theorem context_no_overlap (budget : Nat) (cands : List Candidate)
    (getChunk : Nat → Option Chunk) :
    (assembleContext budget cands getChunk).Pairwise
      (fun a b => ¬ chunkOverlap a b) ∧
    (∀ a ∈ assembleContext budget cands getChunk,
      ∀ b ∈ assembleContext budget cands getChunk, chunkOverlap a b → a = b) ∧
    (∀ x ∈ assembleContext budget cands getChunk,
      ∃ cand ∈ cands, getChunk cand.chunk_id = some x) := by
  have hpw : (assembleContext budget cands getChunk).Pairwise
      (fun a b => ¬ chunkOverlap a b) :=
    assembleGo_pairwise budget _ [] List.Pairwise.nil
  refine ⟨hpw, ?_, ?_⟩
  · intro a ha b hb hab
    by_contra hne
    exact List.Pairwise.forall notOverlap_symmetric hpw ha hb hne hab
  · intro x hx
    rcases assembleGo_mem budget _ [] x hx with h | h
    · exact absurd h (List.not_mem_nil x)
    · rcases List.mem_filterMap.mp h with ⟨cand, hcand, hc⟩
      exact ⟨cand,
        (List.perm_insertionSort assembleOrder cands).mem_iff.mp hcand, hc⟩

/-- C9: an empty or stop-word-only term list makes `search_lexical` return
the empty list, for every index and every `top_k`, rather than failing. -/
theorem lexical_empty_on_stopword_query (idx : List Chunk)
    (query_terms : List (List Char))
    (h : ∀ t ∈ query_terms, isStopWord t = true) :
    ∀ top_k : Nat, search_lexical idx query_terms top_k = [] := by
  intro top_k
  have hqs : query_terms.filter (fun t => !(isStopWord t)) = [] :=
    List.filter_eq_nil_iff.mpr (fun t ht => by simp [h t ht])
  simp [search_lexical, hqs]

/-- C9 witness: a stop-word-only query over a concrete index returns `[]`. -/
theorem lexical_empty_on_stopword_query_witness :
    (∀ t ∈ [("the").toList, ("of").toList], isStopWord t = true) ∧
    search_lexical [] [("the").toList, ("of").toList] 3 = [] :=
  ⟨by decide, lexical_empty_on_stopword_query [] _ (by decide) 3⟩

/-- C10: every `QueryResponse` value carries the `citations` list and both
the `confidence_score` and `groundedness_score` as required fields: its
serialized key set always contains all three keys and is identical for
every response value (the interface declares no optional field). -/
theorem query_response_required_fields (r s : QueryResponse) :
    "citations" ∈ QueryResponse.jsonKeys r ∧
    "confidence_score" ∈ QueryResponse.jsonKeys r ∧
    "groundedness_score" ∈ QueryResponse.jsonKeys r ∧
    QueryResponse.jsonKeys r = QueryResponse.jsonKeys s := by
  refine ⟨?_, ?_, ?_, rfl⟩ <;> simp [QueryResponse.jsonKeys]

/-- C5: every candidate produced by the Hybrid Merger has
`fused_score = α · norm(vector) + (1-α) · norm(lexical)` over the
independently normalized score lists, and a chunk retrieved by only one
signal gets 0 (not null) as the other signal's normalized score. -/
theorem fused_score_formula (lex vec : List (Nat × ℚ)) (alpha : ℚ)
    (fanout : Nat) (c : Candidate)
    (hc : c ∈ fuseCandidates lex vec alpha fanout) :
    c.fused_score = alpha * lookupScore (normalizeScores vec) c.chunk_id +
        (1 - alpha) * lookupScore (normalizeScores lex) c.chunk_id ∧
    (c.vector_score = none →
      lookupScore (normalizeScores vec) c.chunk_id = 0) ∧
    (c.lexical_score = none →
      lookupScore (normalizeScores lex) c.chunk_id = 0) := by
  simp only [fuseCandidates] at hc
  have h1 := (List.take_sublist fanout _).subset hc
  have h2 := (List.perm_insertionSort candOrder _).mem_iff.mp h1
  rcases List.mem_map.mp h2 with ⟨i, hi, hceq⟩
  subst hceq
  refine ⟨rfl, ?_, ?_⟩
  · intro hnone
    exact lookupScore_normalize_absent vec i (by simpa using hnone)
  · intro hnone
    exact lookupScore_normalize_absent lex i (by simpa using hnone)

/-- C5 witness: the fused-score formula at a concrete merger input where the
chunk is retrieved by the lexical signal only. -/
theorem fused_score_formula_witness :
    (Candidate.mk 1 (some 2) none (1 / 2) none ∈
      fuseCandidates [(1, 2)] [] (1 / 2) 5) ∧
    ((Candidate.mk 1 (some 2) none (1 / 2) none).fused_score =
        (1 / 2) * lookupScore (normalizeScores [])
            ((Candidate.mk 1 (some 2) none (1 / 2) none).chunk_id) +
          (1 - 1 / 2) * lookupScore (normalizeScores [(1, 2)])
            ((Candidate.mk 1 (some 2) none (1 / 2) none).chunk_id) ∧
      ((Candidate.mk 1 (some 2) none (1 / 2) none).vector_score = none →
        lookupScore (normalizeScores [])
          ((Candidate.mk 1 (some 2) none (1 / 2) none).chunk_id) = 0) ∧
      ((Candidate.mk 1 (some 2) none (1 / 2) none).lexical_score = none →
        lookupScore (normalizeScores [(1, 2)])
          ((Candidate.mk 1 (some 2) none (1 / 2) none).chunk_id) = 0)) :=
  ⟨by with_unfolding_all decide,
    fused_score_formula [(1, 2)] [] (1 / 2) 5 _ (by with_unfolding_all decide)⟩

/-- C6: when the reranker is unavailable or its call times out, the final
candidate ordering equals the pre-rerank (fused-score) ordering and the
query with a successful generation does not fail. -/
theorem rerank_fallback (cfg : EngineConfig) (idx : List Chunk)
    (qterms : List (List Char)) (qemb : List ℚ) (segs : List (Nat × Nat))
    (rr : RerankOutcome) (cands : List Candidate) (answer : List Char)
    (h : rr = RerankOutcome.unavailable ∨ rr = RerankOutcome.timeout) :
    applyRerank rr cands = cands ∧
    (runQuery cfg idx qterms qemb segs rr
      (GenOutcome.ok answer)).isError = false := by
  have happ : applyRerank rr cands = cands := by
    rcases h with h | h <;> subst h <;> rfl
  refine ⟨happ, ?_⟩
  unfold runQuery
  dsimp only
  split
  · rfl
  · rfl

/-- C6 witness: the fallback theorem at a concrete timed-out reranker. -/
theorem rerank_fallback_witness :
    (RerankOutcome.timeout = RerankOutcome.unavailable ∨
      RerankOutcome.timeout = RerankOutcome.timeout) ∧
    (applyRerank RerankOutcome.timeout [] = [] ∧
      (runQuery (EngineConfig.mk (1 / 2) 8 8 0 100 (9 / 10)) [] [] [] []
        RerankOutcome.timeout
        (GenOutcome.ok (("ok").toList))).isError = false) :=
  ⟨Or.inr rfl,
    rerank_fallback (EngineConfig.mk (1 / 2) 8 8 0 100 (9 / 10)) [] [] [] []
      RerankOutcome.timeout [] (("ok").toList) (Or.inr rfl)⟩

/-- C7: the Citation Extractor/Verifier never modifies the answer text,
produces exactly one Citation per answer segment (an ungrounded segment is
kept, not dropped), and a citation is marked verified exactly when its
confidence reaches the grounding threshold — below-threshold citations are
downgraded to unverified rather than discarded, and no error is possible. -/
theorem verifier_annotates_never_fails (threshold : ℚ) (answer : List Char)
    (ctx : List Chunk) (segs : List (Nat × Nat)) :
    (verifyCitations threshold answer ctx segs).answer_text = answer ∧
    (verifyCitations threshold answer ctx segs).citations.length =
      segs.length ∧
    ∀ cit ∈ (verifyCitations threshold answer ctx segs).citations,
      (cit.verified = true ↔ threshold ≤ cit.confidence) := by
  refine ⟨rfl, by simp [verifyCitations], ?_⟩
  intro cit hcit
  simp only [verifyCitations] at hcit
  rcases List.mem_map.mp hcit with ⟨seg, hseg, hc⟩
  subst hc
  rcases hbm : bestMatch (spanText answer seg.1 seg.2) ctx with _ | ⟨ch, sp⟩
  · simp [citeSegment, hbm]
  · simp [citeSegment, hbm]

/-- C8: a query whose retrieval yields no candidate at or above the minimum
score threshold returns the explicit `NoCandidates` outcome with an empty
citation list, and that outcome is not an error. -/
theorem no_candidates_explicit_outcome (cfg : EngineConfig)
    (idx : List Chunk) (qterms : List (List Char)) (qemb : List ℚ)
    (segs : List (Nat × Nat)) (rr : RerankOutcome) (gen : GenOutcome)
    (h : ∀ c ∈ retrieve idx qterms qemb cfg.alpha cfg.fanout cfg.top_k,
      c.fused_score < cfg.min_score) :
    runQuery cfg idx qterms qemb segs rr gen = QueryOutcome.noCandidates ∧
    (runQuery cfg idx qterms qemb segs rr gen).isError = false ∧
    (runQuery cfg idx qterms qemb segs rr gen).citationList = [] := by
  have hempty :
      (retrieve idx qterms qemb cfg.alpha cfg.fanout cfg.top_k).filter
        (fun c => decide (cfg.min_score ≤ c.fused_score)) = [] := by
    refine List.filter_eq_nil_iff.mpr ?_
    intro c hcmem
    simpa using not_le.mpr (h c hcmem)
  have hrun : runQuery cfg idx qterms qemb segs rr gen =
      QueryOutcome.noCandidates := by
    simp [runQuery, hempty]
  exact ⟨hrun, by rw [hrun]; rfl, by rw [hrun]; rfl⟩

/-- C8 witness: a query over an empty index at a concrete configuration
whose minimum score threshold filters out everything. -/
theorem no_candidates_explicit_outcome_witness :
    (∀ c ∈ retrieve [] [] [] (EngineConfig.mk (1 / 2) 8 8 1 100 (9 / 10)).alpha
        (EngineConfig.mk (1 / 2) 8 8 1 100 (9 / 10)).fanout
        (EngineConfig.mk (1 / 2) 8 8 1 100 (9 / 10)).top_k,
      c.fused_score < (EngineConfig.mk (1 / 2) 8 8 1 100 (9 / 10)).min_score) ∧
    (runQuery (EngineConfig.mk (1 / 2) 8 8 1 100 (9 / 10)) [] [] [] []
        RerankOutcome.unavailable GenOutcome.failure =
      QueryOutcome.noCandidates ∧
      (runQuery (EngineConfig.mk (1 / 2) 8 8 1 100 (9 / 10)) [] [] [] []
        RerankOutcome.unavailable GenOutcome.failure).isError = false ∧
      (runQuery (EngineConfig.mk (1 / 2) 8 8 1 100 (9 / 10)) [] [] [] []
        RerankOutcome.unavailable GenOutcome.failure).citationList = []) :=
  ⟨by with_unfolding_all decide,
    no_candidates_explicit_outcome (EngineConfig.mk (1 / 2) 8 8 1 100 (9 / 10))
      [] [] [] [] RerankOutcome.unavailable GenOutcome.failure
      (by with_unfolding_all decide)⟩

/-- C1: every Citation produced by the verifier whose confidence is at or
above a (positive) grounding threshold is grounded: the text at its
`source_span` in the referenced context chunk matches the answer text at
its `answer_span` within the similarity threshold — the recorded confidence
is exactly that similarity, so it is at least the threshold. -/
theorem citation_grounded_above_threshold (threshold : ℚ)
    (answer : List Char) (ctx : List Chunk) (segs : List (Nat × Nat))
    (cit : CitationRec) (hpos : 0 < threshold)
    (hmem : cit ∈ (verifyCitations threshold answer ctx segs).citations)
    (hconf : threshold ≤ cit.confidence) :
    ∃ ch ∈ ctx, ch.chunk_id = cit.chunk_id ∧
      threshold ≤ similarity
        (spanText answer cit.answer_start cit.answer_end)
        (spanText ch.text cit.source_start cit.source_end) := by
  simp only [verifyCitations] at hmem
  rcases List.mem_map.mp hmem with ⟨seg, hseg, hcit⟩
  subst hcit
  rcases hbm : bestMatch (spanText answer seg.1 seg.2) ctx with _ | ⟨ch, sp⟩
  · exfalso
    have hzero : (citeSegment threshold answer ctx seg).confidence = 0 := by
      simp [citeSegment, hbm]
    rw [hzero] at hconf
    exact absurd hconf (not_le.mpr hpos)
  · refine ⟨ch, bestMatch_chunk_mem _ _ _ _ hbm, ?_, ?_⟩
    · simp [citeSegment, hbm]
    · simp only [citeSegment, hbm] at hconf ⊢
      exact hconf

/-- C1 witness: a concrete verified citation whose recorded source span
text matches the answer segment exactly. -/
theorem citation_grounded_above_threshold_witness :
    (0 : ℚ) < 1 / 2 ∧
    citeSegment (1 / 2) (("ab").toList)
        [Chunk.mk 7 1 (("ab").toList) 0 2 none 2 [1] [("ab").toList]] (0, 2) ∈
      (verifyCitations (1 / 2) (("ab").toList)
        [Chunk.mk 7 1 (("ab").toList) 0 2 none 2 [1] [("ab").toList]]
        [(0, 2)]).citations ∧
    (1 / 2 : ℚ) ≤ (citeSegment (1 / 2) (("ab").toList)
        [Chunk.mk 7 1 (("ab").toList) 0 2 none 2 [1] [("ab").toList]]
        (0, 2)).confidence ∧
    ∃ ch ∈ [Chunk.mk 7 1 (("ab").toList) 0 2 none 2 [1] [("ab").toList]],
      ch.chunk_id = (citeSegment (1 / 2) (("ab").toList)
          [Chunk.mk 7 1 (("ab").toList) 0 2 none 2 [1] [("ab").toList]]
          (0, 2)).chunk_id ∧
      (1 / 2 : ℚ) ≤ similarity
        (spanText (("ab").toList)
          (citeSegment (1 / 2) (("ab").toList)
            [Chunk.mk 7 1 (("ab").toList) 0 2 none 2 [1] [("ab").toList]]
            (0, 2)).answer_start
          (citeSegment (1 / 2) (("ab").toList)
            [Chunk.mk 7 1 (("ab").toList) 0 2 none 2 [1] [("ab").toList]]
            (0, 2)).answer_end)
        (spanText ch.text
          (citeSegment (1 / 2) (("ab").toList)
            [Chunk.mk 7 1 (("ab").toList) 0 2 none 2 [1] [("ab").toList]]
            (0, 2)).source_start
          (citeSegment (1 / 2) (("ab").toList)
            [Chunk.mk 7 1 (("ab").toList) 0 2 none 2 [1] [("ab").toList]]
            (0, 2)).source_end) :=
  ⟨by norm_num, by with_unfolding_all decide, by with_unfolding_all decide,
    citation_grounded_above_threshold (1 / 2) (("ab").toList)
      [Chunk.mk 7 1 (("ab").toList) 0 2 none 2 [1] [("ab").toList]] [(0, 2)]
      (citeSegment (1 / 2) (("ab").toList)
        [Chunk.mk 7 1 (("ab").toList) 0 2 none 2 [1] [("ab").toList]] (0, 2))
      (by norm_num) (by with_unfolding_all decide)
      (by with_unfolding_all decide)⟩
